import Mathlib

/-!
Verification of the `parser/*` scraping pipeline of the admin2 repository:
a shallow embedding in Lean 4 of the offer data model (`parser/types.py`),
the retrying HTTP session (`parser/http.py`), the HTML parser
(`parser/stparts.py`), the orchestrator's filtering/ranking phase and
progress accounting (`parser/stparts_pipeline.py`), and the export pivot
(`parser/excel_export.py`), together with theorems settling the frozen
claims about those components.
-/

namespace Admin2

/-- Embedding of `parser/types.py` `OfferRow` (a Pydantic model).
Python floats are modelled as rationals; optional fields as `Option`. -/
structure OfferRow where
  b : Option String
  a : String
  price : Option ℚ
  quantity : Option ℤ
  delivery : Option ℤ
  provider : Option String
  rating : Option ℚ
  name : Option String
  is_analog : Bool
deriving Repr, DecidableEq

/-! ## ProxySession.fetch_html (`parser/http.py`, lines 124-161)

The network is modelled as a script: `resp i` is the outcome of the `i`-th
GET request the session issues.  `jit i` models `random.uniform(0, 1)` drawn
on attempt `i`.  The function returns the final outcome, the list of delays
passed to `asyncio.sleep` (in order), and the number of GET requests issued. -/

/-- Outcome of one GET request, as seen by `fetch_html`'s exception handling:
a successful body, an `httpx.HTTPStatusError` with a status code and the
parsed `Retry-After` header (`none` when the header is absent or its value
does not parse as a Python float), or an `httpx.RequestError`. -/
inductive FetchResp where
  | success (body : String)
  | httpError (status : ℕ) (retryAfter : Option ℚ)
  | netError
deriving Repr, DecidableEq

/-- Result of `fetch_html`: the returned text, an immediately re-raised
`HTTPStatusError`, a re-raised `RequestError` from the last attempt, or the
final `RequestError("All ... attempts ... failed")`. -/
inductive FetchResult where
  | ok (body : String)
  | statusError (status : ℕ)
  | netFail
  | allAttemptsFailed
deriving Repr, DecidableEq

/-- Configuration constants of `ProxySession.__init__`:
`max_retries = 3`, `base_delay_sec = 1.0`, `max_delay_sec = 60.0`. -/
def maxRetriesConst : ℕ := 3

def baseDelaySec : ℚ := 1

def maxDelaySec : ℚ := 60

/-- One pass of the `for attempt in range(self.max_retries)` loop of
`fetch_html`, as a recursion on the remaining attempt budget `rem`
(`rem = max_retries - attempt`).  Faithful to `parser/http.py` lines
131-161: on 429/503 compute `min(max_delay, base * 2**attempt + jitter)`,
for 429 raise it to the `Retry-After` value when that parses; sleep and
continue (even on the last attempt). On any other HTTP status re-raise at
once. On a network error sleep and continue only if `attempt <
max_retries - 1`, else re-raise.  Exhausting the loop raises the final
"all attempts failed" error. -/
def fetchAux (resp : ℕ → FetchResp) (jit : ℕ → ℚ) : ℕ → ℕ → FetchResult × List ℚ × ℕ
  | _, 0 => (.allAttemptsFailed, [], 0)
  | attempt, rem + 1 =>
    match resp attempt with
    | .success body => (.ok body, [], 1)
    | .httpError s retryAfter =>
      if s = 429 ∨ s = 503 then
        let backoff := min maxDelaySec (baseDelaySec * 2 ^ attempt + jit attempt)
        let delay := if s = 429 then
            (match retryAfter with
             | some v => max backoff v
             | none => backoff)
          else backoff
        let rest := fetchAux resp jit (attempt + 1) rem
        (rest.1, delay :: rest.2.1, rest.2.2 + 1)
      else
        (.statusError s, [], 1)
    | .netError =>
      if rem + 1 > 1 then
        let delay := min maxDelaySec (baseDelaySec * 2 ^ attempt + jit attempt)
        let rest := fetchAux resp jit (attempt + 1) rem
        (rest.1, delay :: rest.2.1, rest.2.2 + 1)
      else
        (.netFail, [], 1)

/-- `ProxySession.fetch_html` with the constructor's constants. -/
def fetch_html (resp : ℕ → FetchResp) (jit : ℕ → ℚ) : FetchResult × List ℚ × ℕ :=
  fetchAux resp jit 0 maxRetriesConst

/-- Script for the three-503s-then-success scenario of claim C3. -/
def script503x3 : ℕ → FetchResp
  | 0 => .httpError 503 none
  | 1 => .httpError 503 none
  | 2 => .httpError 503 none
  | _ => .success "ok"

/-- Zero jitter (a legal draw of `random.uniform(0, 1)`). -/
def jitZero : ℕ → ℚ := fun _ => 0

example : fetch_html script503x3 jitZero = (.allAttemptsFailed, [1, 2, 4], 3) := by
  norm_num [fetch_html, fetchAux, script503x3, jitZero, maxRetriesConst, baseDelaySec,
    maxDelaySec, min_def]

/-- C3 (counterexample): with three consecutive 503 responses followed by a
success, `fetch_html` sleeps three times but never returns the success body:
`max_retries = 3` means the budget is exhausted after the third 503, the
final "all attempts failed" error is raised, and the fourth response (the
success) is never requested — only 3 GETs are issued. -/
theorem fetch_html_three_503_not_success :
    (fetch_html script503x3 jitZero).2.1.length = 3 ∧
    (fetch_html script503x3 jitZero).1 ≠ FetchResult.ok "ok" ∧
    (fetch_html script503x3 jitZero).2.2 = 3 := by
  refine ⟨?_, ?_, ?_⟩ <;>
    norm_num [fetch_html, fetchAux, script503x3, jitZero, maxRetriesConst, baseDelaySec,
      maxDelaySec, min_def]
  exact fun h => FetchResult.noConfusion h

/-- C3 (amended): a 429 response followed by a success returns the success
body after exactly one sleep; three consecutive 503 responses exhaust the
attempt budget — the session sleeps three times, each sleep capped at the
60-second maximum delay, and raises the all-attempts-failed error, so a
subsequent success is never returned; two 503 responses followed by a
success sleep twice (each capped at 60 s) and return the success body. -/
theorem fetch_html_retry_backoff (resp : ℕ → FetchResp) (jit : ℕ → ℚ) (body : String)
    (ra : Option ℚ) :
    (resp 0 = .httpError 429 none → resp 1 = .success body →
      fetch_html resp jit =
        (.ok body, [min maxDelaySec (baseDelaySec * 2 ^ 0 + jit 0)], 2)) ∧
    ((∀ i < 3, resp i = .httpError 503 ra) →
      fetch_html resp jit =
        (.allAttemptsFailed,
          [min maxDelaySec (baseDelaySec * 2 ^ 0 + jit 0),
           min maxDelaySec (baseDelaySec * 2 ^ 1 + jit 1),
           min maxDelaySec (baseDelaySec * 2 ^ 2 + jit 2)], 3) ∧
      ∀ d ∈ (fetch_html resp jit).2.1, d ≤ maxDelaySec) ∧
    (resp 0 = .httpError 503 ra → resp 1 = .httpError 503 ra → resp 2 = .success body →
      fetch_html resp jit =
        (.ok body,
          [min maxDelaySec (baseDelaySec * 2 ^ 0 + jit 0),
           min maxDelaySec (baseDelaySec * 2 ^ 1 + jit 1)], 3) ∧
      ∀ d ∈ (fetch_html resp jit).2.1, d ≤ maxDelaySec) := by
  refine ⟨fun h0 h1 => ?_, fun h => ?_, fun h0 h1 h2 => ?_⟩
  · simp [fetch_html, maxRetriesConst, fetchAux, h0, h1]
  · have h0 := h 0 (by norm_num)
    have h1 := h 1 (by norm_num)
    have h2 := h 2 (by norm_num)
    have hres : fetch_html resp jit =
        (.allAttemptsFailed,
          [min maxDelaySec (baseDelaySec * 2 ^ 0 + jit 0),
           min maxDelaySec (baseDelaySec * 2 ^ 1 + jit 1),
           min maxDelaySec (baseDelaySec * 2 ^ 2 + jit 2)], 3) := by
      simp [fetch_html, maxRetriesConst, fetchAux, h0, h1, h2]
    refine ⟨hres, ?_⟩
    rw [hres]
    intro d hd
    simp only [List.mem_cons, List.not_mem_nil, or_false] at hd
    rcases hd with h | h | h <;> rw [h] <;> exact min_le_left _ _
  · have hres : fetch_html resp jit =
        (.ok body,
          [min maxDelaySec (baseDelaySec * 2 ^ 0 + jit 0),
           min maxDelaySec (baseDelaySec * 2 ^ 1 + jit 1)], 3) := by
      simp [fetch_html, maxRetriesConst, fetchAux, h0, h1, h2]
    refine ⟨hres, ?_⟩
    rw [hres]
    intro d hd
    simp only [List.mem_cons, List.not_mem_nil, or_false] at hd
    rcases hd with h | h <;> rw [h] <;> exact min_le_left _ _

/-- Script for the C3 witness: a 429 then a success. -/
def script429 : ℕ → FetchResp
  | 0 => .httpError 429 none
  | _ => .success "ok"

/-- C3 witness: the amended theorem applied at the concrete 429-then-success
script with zero jitter yields the success body after exactly one sleep. -/
theorem fetch_html_retry_backoff_witness :
    (fetch_html script429 jitZero).1 = .ok "ok" ∧
    (fetch_html script429 jitZero).2.1.length = 1 := by
  have h := (fetch_html_retry_backoff script429 jitZero "ok" none).1 rfl rfl
  rw [h]
  exact ⟨rfl, rfl⟩

/-- C4: for an HTTP error status other than 429 and 503, `fetch_html`
raises immediately on the first failing attempt: no sleep occurs and no
further request is issued (exactly one GET). -/
theorem fetch_html_permanent_status (resp : ℕ → FetchResp) (jit : ℕ → ℚ) (s : ℕ)
    (ra : Option ℚ) (hs429 : s ≠ 429) (hs503 : s ≠ 503)
    (h0 : resp 0 = .httpError s ra) :
    fetch_html resp jit = (.statusError s, [], 1) := by
  simp [fetch_html, maxRetriesConst, fetchAux, h0, hs429, hs503]

/-- Script for the C4 witness: a single 404 response. -/
def script404 : ℕ → FetchResp
  | _ => .httpError 404 none

/-- C4 witness: the theorem applied at a concrete 404 script. -/
theorem fetch_html_permanent_status_witness :
    fetch_html script404 jitZero = (.statusError 404, [], 1) :=
  fetch_html_permanent_status script404 jitZero 404 none (by decide) (by decide) rfl

/-- C10: when the first response is a 429 whose `Retry-After` header parses
to a value `v` strictly greater than the 60-second maximum delay, the first
sleep is the full header value `v`: the cap applies only to the computed
exponential backoff, which the header value then overrides as a floor. -/
theorem fetch_html_retry_after_uncapped (resp : ℕ → FetchResp) (jit : ℕ → ℚ) (v : ℚ)
    (hv : maxDelaySec < v) (h0 : resp 0 = .httpError 429 (some v)) :
    (fetch_html resp jit).2.1.head? = some v := by
    have hmax : max (min maxDelaySec (baseDelaySec * 2 ^ 0 + jit 0)) v = v :=
      max_eq_right (le_of_lt (lt_of_le_of_lt (min_le_left _ _) hv))
    simp only [fetch_html, maxRetriesConst, fetchAux, h0]
    simp [hmax]
    exact Or.inl hv.le

/-- Script for the C10 witness: a 429 carrying `Retry-After: 120`, then a
success. -/
def script429RetryAfter : ℕ → FetchResp
  | 0 => .httpError 429 (some 120)
  | _ => .success "ok"

/-- C10 witness: the theorem applied at the concrete script whose
`Retry-After` value 120 exceeds the 60-second cap. -/
theorem fetch_html_retry_after_uncapped_witness :
    (fetch_html script429RetryAfter jitZero).2.1.head? = some 120 :=
  fetch_html_retry_after_uncapped script429RetryAfter jitZero 120 (by norm_num [maxDelaySec])
    rfl

/-! ## URL handling (`parser/http.py`, lines 210-231: `requested_article`)

`urllib.parse.urlparse` / `parse_qs` are modelled for the URL dialect the
pipeline uses: ASCII URLs without percent-escapes or `;`-params.  Characters
are handled as `List Char` so every step kernel-evaluates. -/

/-- Standard split on a separator character; an empty input yields `[[]]`,
matching Python's `"".split(sep) == [""]`. -/
def splitOnChar (c : Char) : List Char → List (List Char)
  | [] => [[]]
  | x :: xs =>
    if x = c then [] :: splitOnChar c xs
    else
      match splitOnChar c xs with
      | [] => [[x]]
      | h :: t => (x :: h) :: t

/-- Split at the first occurrence of `c`: the part before it, and the part
after it (`none` when `c` does not occur). -/
def breakAtChar (c : Char) : List Char → List Char × Option (List Char)
  | [] => ([], none)
  | x :: xs =>
    if x = c then ([], some xs)
    else
      let r := breakAtChar c xs
      (x :: r.1, r.2)

/-- Drop everything up to and including the first `://` (the scheme
separator); `none` when the URL has no scheme part. -/
def dropThroughSchemeSep : List Char → Option (List Char)
  | ':' :: '/' :: '/' :: rest => some rest
  | _ :: rest => dropThroughSchemeSep rest
  | [] => none

/-- Drop the network-location part: everything before the first `/`, `?` or
`#` (that delimiter starts the path/query/fragment). -/
def dropNetloc : List Char → List Char
  | [] => []
  | x :: xs => if x = '/' ∨ x = '?' ∨ x = '#' then x :: xs else dropNetloc xs

/-- The `(path, query)` components of `urllib.parse.urlparse` for an
absolute or relative HTTP URL without percent-escapes. -/
def urlPathQuery (url : List Char) : List Char × List Char :=
  let rest :=
    match dropThroughSchemeSep url with
    | some r => dropNetloc r
    | none => url
  let beforeFrag := (breakAtChar '#' rest).1
  let pq := breakAtChar '?' beforeFrag
  (pq.1, pq.2.getD [])

/-- Python `path.strip("/")`: remove leading and trailing slashes. -/
def stripSlashes (l : List Char) : List Char :=
  ((l.dropWhile (· = '/')).reverse.dropWhile (· = '/')).reverse

/-- The `path_parts` list of `requested_article`:
`urlparse(url).path.strip("/").split("/")`. -/
def urlPathParts (url : String) : List (List Char) :=
  splitOnChar '/' (stripSlashes (urlPathQuery url.data).1)

/-- `urllib.parse.parse_qs` key/value pairs in order: fields split on `&`;
a field without `=` or with a blank value is dropped
(`keep_blank_values=False`). -/
def parseQsPairs (q : List Char) : List (List Char × List Char) :=
  (splitOnChar '&' q).filterMap fun field =>
    match breakAtChar '=' field with
    | (_, none) => none
    | (k, some v) => if v = [] then none else some (k, v)

/-- First `pcode` value of the URL's query string, i.e.
`parse_qs(query)["pcode"][0]` when the key is present. -/
def pcodeParam (url : String) : Option (List Char) :=
  ((parseQsPairs (urlPathQuery url.data).2).find? fun kv =>
      kv.1 = ("pcode").data).map Prod.snd

/-- `requested_article` (`parser/http.py`, lines 210-231): the article code
from an stparts.ru search URL, `none` in place of the raised `ValueError`. -/
def requested_article (url : String) : Option String :=
  let parts := urlPathParts url
  if ("search").data ∈ parts then
    if 2 < parts.length ∧ parts.head? = some ("search").data then
      (parts.get? 2).map List.asString
    else
      (pcodeParam url).map List.asString
  else none

example : requested_article "https://stparts.ru/search?pcode=ABC" = some "ABC" := by decide
example : requested_article "https://stparts.ru/search/Brand/CODE7?disableFiltering"
    = some "CODE7" := by decide
example : requested_article "https://stparts.ru/catalog?pcode=ABC" = none := by decide

/-! ## HTML parsing (`parser/stparts.py`)

A page handed to `parse_stparts` is modelled as the parsed tree structure
the function actually inspects: the optional `table#searchResultsTable`
with its `tbody > tr.resultTr2` rows, each row carrying its attribute map
and the raw text of the cells the parser reads.  A selectolax attribute can
be present yet valueless, hence `Option String` values. -/

/-- One `tr.resultTr2` row node. -/
structure RowNode where
  attrs : List (String × Option String)
  brandCellText : Option String
  descText : Option String
  warehouseText : Option String
deriving Repr, DecidableEq

/-- `node.attributes.get(k)`: `None` when the attribute is absent or
valueless. -/
def RowNode.attr (r : RowNode) (k : String) : Option String :=
  match r.attrs.find? (fun kv => kv.1 = k) with
  | some kv => kv.2
  | none => none

/-- The page tree as consumed by `parse_stparts`. -/
structure PageTree where
  searchResultsTable : Option (List RowNode)
deriving Repr, DecidableEq

/-- Python `str.strip()` on the whitespace this site produces. -/
def stripWs (l : List Char) : List Char :=
  ((l.dropWhile Char.isWhitespace).reverse.dropWhile Char.isWhitespace).reverse

/-- Leading decimal digits of a character list and the remainder. -/
def digitsPrefix (l : List Char) : List Char × List Char :=
  (l.takeWhile Char.isDigit, l.dropWhile Char.isDigit)

/-- Match of `\d+(?:[.,]\d+)?` anchored at the head of `l` (greedy). -/
def numMatchCore (l : List Char) : Option (List Char) :=
  let d := (digitsPrefix l).1
  let rest := (digitsPrefix l).2
  if d = [] then none
  else
    match rest with
    | sep :: rest2 =>
      if sep = '.' ∨ sep = ',' then
        let d2 := (digitsPrefix rest2).1
        if d2 = [] then some d else some (d ++ sep :: d2)
      else some d
    | [] => some d

/-- Match of `_NUM_RE = [-+]?\d+(?:[.,]\d+)?` anchored at the head of `l`. -/
def numMatchAt (l : List Char) : Option (List Char) :=
  match l with
  | c :: rest =>
    if c = '+' ∨ c = '-' then (numMatchCore rest).map (fun m => c :: m)
    else numMatchCore l
  | [] => none

/-- `_NUM_RE.search`: the leftmost match of the number pattern. -/
def numSearch : List Char → Option (List Char)
  | [] => none
  | c :: rest =>
    match numMatchAt (c :: rest) with
    | some m => some m
    | none => numSearch rest

/-- Digit run to a natural number. -/
def natOfDigits (l : List Char) : ℕ :=
  l.foldl (fun acc c => 10 * acc + (c.toNat - ('0').toNat)) 0

/-- Unsigned Python decimal literal: `digits`, `digits.digits`, `.digits`
or `digits.` (at least one digit overall). -/
def parseUnsignedDecimal (l : List Char) : Option ℚ :=
  let ip := (digitsPrefix l).1
  let rest := (digitsPrefix l).2
  match rest with
  | [] => if ip = [] then none else some (natOfDigits ip)
  | '.' :: rest2 =>
    let fp := (digitsPrefix rest2).1
    let rest3 := (digitsPrefix rest2).2
    if rest3 ≠ [] then none
    else if ip = [] ∧ fp = [] then none
    else some ((natOfDigits ip : ℚ) + (natOfDigits fp : ℚ) / 10 ^ fp.length)
  | _ => none

/-- CPython `float(s)` on the finite decimal literals this site produces
(no exponents, underscores or infinities). -/
def pyFloat (l : List Char) : Option ℚ :=
  match l with
  | '+' :: rest => parseUnsignedDecimal rest
  | '-' :: rest => (parseUnsignedDecimal rest).map Neg.neg
  | _ => parseUnsignedDecimal l

/-- Python `int()` applied to a float: truncation toward zero. -/
def truncQ (q : ℚ) : ℤ := if 0 ≤ q then ⌊q⌋ else ⌈q⌉

/-- Replace decimal commas by dots (`.replace(",", ".")`). -/
def commaToDot (l : List Char) : List Char :=
  l.map fun c => if c = ',' then '.' else c

/-- `_parse_price` (`parser/stparts.py`, lines 54-67): strip all whitespace,
commas to dots, then `float`; falsy attribute or parse failure gives `None`. -/
def parse_price (row : RowNode) : Option ℚ :=
  match row.attr "data-output-price" with
  | none => none
  | some s =>
    if s = "" then none
    else pyFloat (commaToDot (s.data.filter fun c => !c.isWhitespace))

/-- The shared `int(float(match.replace(",", ".")))` step on a `_NUM_RE`
match. -/
def numToInt (m : List Char) : Option ℤ :=
  (pyFloat (commaToDot m)).map truncQ

/-- `_parse_quantity` (`parser/stparts.py`, lines 70-84): first number in
the stripped `data-availability` string, truncated to an integer. -/
def parse_quantity (row : RowNode) : Option ℤ :=
  match row.attr "data-availability" with
  | none => none
  | some s =>
    if s = "" then none
    else
      match numSearch (stripWs s.data) with
      | none => none
      | some m => numToInt m

/-- The inner `_hours` helper of `_parse_deadline`. -/
def hoursOf (s : Option String) : Option ℤ :=
  match s with
  | none => none
  | some str =>
    if str = "" then none
    else
      match numSearch (stripWs str.data) with
      | none => none
      | some m => numToInt m

/-- `_parse_deadline` (`parser/stparts.py`, lines 22-51): the larger of the
two hour attributes that parse, converted to days by `ceil(hours / 24)`. -/
def parse_deadline (row : RowNode) : Option ℤ :=
  match hoursOf (row.attr "data-deadline"), hoursOf (row.attr "data-deadline-max") with
  | none, none => none
  | some h, none => some ⌈(h : ℚ) / 24⌉
  | none, some h => some ⌈(h : ℚ) / 24⌉
  | some h1, some h2 => some ⌈((max h1 h2 : ℤ) : ℚ) / 24⌉

/-- The brand of a row: the `data-brand` attribute, falling back to the
`td.resultBrand a` text when the attribute is absent or empty; an empty
attribute with no brand cell leaves the empty string in place. -/
def rowBrand (row : RowNode) : Option String :=
  let b0 := row.attr "data-brand"
  if b0 = none ∨ b0 = some "" then
    match row.brandCellText with
    | some t => some t
    | none => b0
  else b0

/-- The `OfferRow(...)` construction for one result row
(`parser/stparts.py`, lines 113-137). -/
def mkOffer (article : String) (row : RowNode) : OfferRow where
  b := rowBrand row
  a := article
  price := parse_price row
  quantity := parse_quantity row
  delivery := parse_deadline row
  provider := row.warehouseText.map fun s => (stripWs s.data).asString
  rating := none
  name := row.descText.map fun s => (stripWs s.data).asString
  is_analog := row.attr "data-is-analog" == some "1"

/-- `parse_stparts` (`parser/stparts.py`, lines 87-139): derive the article
from the source URL (a `ValueError` yields `[]`), find the results table
(absence yields `[]`), skip analog rows unless requested, and build one
offer per remaining row. -/
def parse_stparts (tree : PageTree) (source_url : String) (include_analogs : Bool) :
    List OfferRow :=
  match requested_article source_url with
  | none => []
  | some article =>
    match tree.searchResultsTable with
    | none => []
    | some rows =>
      (rows.filter fun r =>
          include_analogs || !(r.attr "data-is-analog" == some "1")).map (mkOffer article)

/-! ## Claims C5 and C9: URL shapes and the analog flag -/

/-- C5 (amended): `parse_stparts` never lets the URL `ValueError` escape — a
URL from which no article can be extracted yields an empty offer list; every
offer returned carries the extracted article code; and the accepted URL
shapes are exactly: a path whose parts contain a `search` segment and either
(a) have a third segment with `search` as the first segment, or (b) a
non-blank `pcode` query parameter.  In particular a `pcode` parameter alone
is not accepted — the path must also contain a `search` segment. -/
theorem parse_stparts_url_shapes (tree : PageTree) (url : String) (incl : Bool) :
    (requested_article url = none → parse_stparts tree url incl = []) ∧
    (∀ o ∈ parse_stparts tree url incl, some o.a = requested_article url) ∧
    ((requested_article url).isSome ↔
      ("search").data ∈ urlPathParts url ∧
        ((2 < (urlPathParts url).length ∧
            (urlPathParts url).head? = some ("search").data) ∨
          (pcodeParam url).isSome)) := by
  refine ⟨fun h => by simp [parse_stparts, h], ?_, ?_⟩
  · intro o ho
    unfold parse_stparts at ho
    cases hra : requested_article url with
    | none => rw [hra] at ho; simp at ho
    | some article =>
      rw [hra] at ho
      cases htab : tree.searchResultsTable with
      | none => rw [htab] at ho; simp at ho
      | some rows =>
        rw [htab] at ho
        simp only [List.mem_map] at ho
        obtain ⟨r, _, hr⟩ := ho
        rw [← hr]
        rfl
  · unfold requested_article
    by_cases h1 : ("search").data ∈ urlPathParts url
    · by_cases h2 : 2 < (urlPathParts url).length ∧
          (urlPathParts url).head? = some ("search").data
      · have hget : (urlPathParts url).get? 2 = some ((urlPathParts url).get ⟨2, h2.1⟩) :=
          List.get?_eq_get h2.1
        simp [h1, h2, hget]
      · simp [h1, h2]
    · simp [h1]

/-- C5 witness: the amended theorem applied at a URL with neither accepted
shape — the offer list is empty, and the shape characterization evaluates
to false at that URL and to true at the canonical search URL. -/
theorem parse_stparts_url_shapes_witness :
    parse_stparts { searchResultsTable := some [] } "https://stparts.ru/foo/bar" true = [] ∧
    (requested_article "https://stparts.ru/foo/bar").isSome = false ∧
    (requested_article "https://stparts.ru/search?pcode=Z9").isSome = true := by
  have h := parse_stparts_url_shapes { searchResultsTable := some [] }
    "https://stparts.ru/foo/bar" true
  have h2 := (parse_stparts_url_shapes { searchResultsTable := some [] }
    "https://stparts.ru/search?pcode=Z9" true).2.2
  exact ⟨h.1 (by decide), by decide, h2.mpr (by decide)⟩

/-- Concrete page with one parseable result row. -/
def rowC5 : RowNode :=
  { attrs := [("data-output-price", some "5")],
    brandCellText := none, descText := none, warehouseText := none }

/-- A one-row results page. -/
def treeC5 : PageTree := { searchResultsTable := some [rowC5] }

/-- C5 (counterexample): `https://stparts.ru/catalog?pcode=ABC` has a
`pcode` query parameter — one of the claim's two accepted shapes — yet
`requested_article` rejects it (the path has no `search` segment) and
`parse_stparts` returns no offers even though the very same page yields an
offer under `https://stparts.ru/search?pcode=ABC`. -/
theorem requested_article_pcode_alone_rejected :
    (pcodeParam "https://stparts.ru/catalog?pcode=ABC").isSome = true ∧
    requested_article "https://stparts.ru/catalog?pcode=ABC" = none ∧
    parse_stparts treeC5 "https://stparts.ru/catalog?pcode=ABC" true = [] ∧
    parse_stparts treeC5 "https://stparts.ru/search?pcode=ABC" true ≠ [] := by
  refine ⟨by decide, by decide, by decide, ?_⟩
  intro h
  exact absurd (congrArg List.length h) (by decide)

/-- C9: a result row is an analog exactly when its `data-is-analog`
attribute is the string `"1"`; with `include_analogs = False` the parser
retains precisely the rows whose attribute is not `"1"` — a missing
attribute or any other value (for example `"true"` or `"0"`) is kept. -/
theorem parse_stparts_analog_flag (tree : PageTree) (url article : String)
    (rows : List RowNode) (h1 : requested_article url = some article)
    (h2 : tree.searchResultsTable = some rows) :
    (∀ r ∈ rows, (mkOffer article r).is_analog = (r.attr "data-is-analog" == some "1")) ∧
    parse_stparts tree url false =
      (rows.filter fun r => !(r.attr "data-is-analog" == some "1")).map (mkOffer article) := by
  refine ⟨fun r _ => rfl, ?_⟩
  simp [parse_stparts, h1, h2]

/-- Row flagged as an analog by the exact string `"1"`. -/
def rowAnalog1 : RowNode :=
  { attrs := [("data-is-analog", some "1")],
    brandCellText := none, descText := none, warehouseText := none }

/-- Row with `data-is-analog="true"` — not the string `"1"`. -/
def rowAnalogTrue : RowNode :=
  { attrs := [("data-is-analog", some "true")],
    brandCellText := none, descText := none, warehouseText := none }

/-- Row with `data-is-analog="0"`. -/
def rowAnalog0 : RowNode :=
  { attrs := [("data-is-analog", some "0")],
    brandCellText := none, descText := none, warehouseText := none }

/-- Row without the `data-is-analog` attribute. -/
def rowAnalogNone : RowNode :=
  { attrs := [], brandCellText := none, descText := none, warehouseText := none }

/-- The four-row page used by the C9 witness. -/
def treeC9 : PageTree :=
  { searchResultsTable := some [rowAnalog1, rowAnalogTrue, rowAnalog0, rowAnalogNone] }

/-- C9 witness: on a concrete page, with analogs excluded, exactly the
`"true"`, `"0"` and missing-attribute rows are retained (the `"1"` row is
dropped), and only the `"1"` row is classified as an analog. -/
theorem parse_stparts_analog_flag_witness :
    parse_stparts treeC9 "https://stparts.ru/search?pcode=A1" false =
      [mkOffer "A1" rowAnalogTrue, mkOffer "A1" rowAnalog0, mkOffer "A1" rowAnalogNone] ∧
    (mkOffer "A1" rowAnalog1).is_analog = true ∧
    (mkOffer "A1" rowAnalogTrue).is_analog = false ∧
    (mkOffer "A1" rowAnalog0).is_analog = false ∧
    (mkOffer "A1" rowAnalogNone).is_analog = false := by
  have h := parse_stparts_analog_flag treeC9 "https://stparts.ru/search?pcode=A1" "A1"
    [rowAnalog1, rowAnalogTrue, rowAnalog0, rowAnalogNone] (by decide) rfl
  exact ⟨h.2.trans (by decide), by decide, by decide, by decide, by decide⟩

/-! ## Pipeline FILTERING phase (`parser/stparts_pipeline.py`, lines 112-119)

`priced_offers.sort(key=lambda o: (o.a, o.price, -(o.quantity or 0),
o.delivery or 999))` followed by `itertools.groupby` on `o.a` and a `[:10]`
cap per group.  Python's `list.sort` is a stable sort by a lexicographic
key; a stable sort's output is unique, realized here by `insertionSort`.
Strings are compared through their character lists (Python compares strings
by code points). -/

/-- Key component `o.delivery or 999`: Python's `or` replaces both a
missing and a zero delivery by the 999 sentinel. -/
def deliveryKey : Option ℤ → ℤ
  | none => 999
  | some d => if d = 0 then 999 else d

/-- Key component `-(o.quantity or 0)`. -/
def quantityKey (q : Option ℤ) : ℤ := -(q.getD 0)

/-- The within-article part of the sort key:
`(o.price, -(o.quantity or 0), o.delivery or 999)`.  Every offer reaching
the sort has a price (`None` prices were filtered out), so the `getD`
default is never exercised. -/
def groupKey (o : OfferRow) : Lex (ℚ × Lex (ℤ × ℤ)) :=
  toLex (o.price.getD 0, toLex (quantityKey o.quantity, deliveryKey o.delivery))

/-- The full sort key `(o.a, o.price, -(o.quantity or 0), o.delivery or 999)`. -/
def sortKey (o : OfferRow) : Lex (List Char × Lex (ℚ × Lex (ℤ × ℤ))) :=
  toLex (o.a.data, groupKey o)

/-- The sort's comparison. -/
def keyLe (o₁ o₂ : OfferRow) : Prop := sortKey o₁ ≤ sortKey o₂

/-- The within-article comparison (the key with the shared article removed). -/
def groupLe (o₁ o₂ : OfferRow) : Prop := groupKey o₁ ≤ groupKey o₂

instance : DecidableRel keyLe := fun o₁ o₂ =>
  inferInstanceAs (Decidable (sortKey o₁ ≤ sortKey o₂))

instance : DecidableRel groupLe := fun o₁ o₂ =>
  inferInstanceAs (Decidable (groupKey o₁ ≤ groupKey o₂))

instance : IsTotal OfferRow keyLe := ⟨fun o₁ o₂ => le_total (sortKey o₁) (sortKey o₂)⟩

instance : IsTrans OfferRow keyLe := ⟨fun _ _ _ => le_trans⟩

instance : IsTotal OfferRow groupLe := ⟨fun o₁ o₂ => le_total (groupKey o₁) (groupKey o₂)⟩

instance : IsTrans OfferRow groupLe := ⟨fun _ _ _ => le_trans⟩

/-- `priced_offers.sort(key=...)`: the stable sort by `sortKey`. -/
def pipelineSort (l : List OfferRow) : List OfferRow := l.insertionSort keyLe

/-- Fuel-indexed recursion on maximal runs of equal article (structural on
the fuel so that it evaluates in the kernel); the fuel is an upper bound on
the list length and is never exhausted when so chosen. -/
def groupCapFuel : ℕ → List OfferRow → List OfferRow
  | 0, _ => []
  | _, [] => []
  | fuel + 1, o :: t =>
    (o :: t.takeWhile fun x => x.a == o.a).take 10 ++
      groupCapFuel fuel (t.dropWhile fun x => x.a == o.a)

/-- `for _, group in itertools.groupby(priced_offers, key=lambda o: o.a):
final_results.extend(list(group)[:10])`: maximal runs of equal article,
each capped to its first 10 elements, concatenated. -/
def groupCap (l : List OfferRow) : List OfferRow := groupCapFuel l.length l

/-- The FILTERING phase of `run_stparts_pipeline`
(`parser/stparts_pipeline.py`, lines 112-119): drop unpriced offers, sort
by the pipeline key, group by article and cap each group to 10. -/
def run_stparts_filter (all_offers : List OfferRow) : List OfferRow :=
  groupCap (pipelineSort (all_offers.filter fun o => o.price.isSome))

/-! ### Stable-sort bookkeeping lemmas -/

/-- Inserting an element that is `r`-below the whole list puts it at the
head. -/
theorem orderedInsert_of_forall {α : Type} (r : α → α → Prop) [DecidableRel r] (a : α)
    (l : List α) (h : ∀ x ∈ l, r a x) : l.orderedInsert r a = a :: l := by
  cases l with
  | nil => rfl
  | cons b t => exact List.orderedInsert_of_le r t (h b (by simp))

/-- Filtering commutes with an ordered insertion into a sorted list. -/
theorem filter_orderedInsert {α : Type} (r : α → α → Prop) [DecidableRel r] [IsTrans α r]
    (p : α → Bool) (a : α) :
    ∀ l : List α, l.Sorted r →
      (l.orderedInsert r a).filter p =
        if p a then (l.filter p).orderedInsert r a else l.filter p
  | [], _ => by
    cases hp : p a <;> simp [List.orderedInsert, List.filter, hp]
  | b :: t, hs => by
    by_cases hr : r a b
    · rw [List.orderedInsert_of_le r t hr]
      by_cases hp : p a
      · rw [if_pos hp, List.filter_cons_of_pos hp]
        refine (orderedInsert_of_forall r a _ fun x hx => ?_).symm
        rcases List.mem_cons.mp (List.mem_filter.mp hx).1 with hx' | hx'
        · exact hx' ▸ hr
        · exact Trans.trans hr (List.rel_of_sorted_cons hs x hx')
      · rw [if_neg hp, List.filter_cons_of_neg hp]
    · have hstep : (b :: t).orderedInsert r a = b :: t.orderedInsert r a := by
        simp [List.orderedInsert, hr]
      have ih := filter_orderedInsert r p a t hs.of_cons
      rw [hstep]
      by_cases hp : p a
      · rw [if_pos hp] at ih ⊢
        by_cases hpb : p b
        · rw [List.filter_cons_of_pos hpb, List.filter_cons_of_pos hpb, ih]
          simp [List.orderedInsert, hr]
        · rw [List.filter_cons_of_neg hpb, List.filter_cons_of_neg hpb, ih]
      · rw [if_neg hp] at ih ⊢
        by_cases hpb : p b
        · rw [List.filter_cons_of_pos hpb, List.filter_cons_of_pos hpb, ih]
        · rw [List.filter_cons_of_neg hpb, List.filter_cons_of_neg hpb, ih]

/-- Filtering commutes with the stable sort (the defining property of
stability used by the per-article characterization). -/
theorem filter_insertionSort {α : Type} (r : α → α → Prop) [DecidableRel r] [IsTotal α r]
    [IsTrans α r] (p : α → Bool) :
    ∀ l : List α, (l.insertionSort r).filter p = (l.filter p).insertionSort r
  | [] => rfl
  | a :: t => by
    rw [show (a :: t).insertionSort r = (t.insertionSort r).orderedInsert r a from rfl,
      filter_orderedInsert r p a _ (List.sorted_insertionSort r t),
      filter_insertionSort r p t]
    by_cases hp : p a
    · rw [if_pos hp, List.filter_cons_of_pos hp]
      rfl
    · rw [if_neg hp, List.filter_cons_of_neg hp]

/-- Ordered insertion only inspects the relation at the inserted element. -/
theorem orderedInsert_congr {α : Type} (r s : α → α → Prop) [DecidableRel r] [DecidableRel s]
    (a : α) :
    ∀ l : List α, (∀ y ∈ l, r a y ↔ s a y) → l.orderedInsert r a = l.orderedInsert s a
  | [], _ => rfl
  | b :: t, h => by
    simp only [List.orderedInsert]
    by_cases hr : r a b
    · rw [if_pos hr, if_pos ((h b (by simp)).mp hr)]
    · rw [if_neg hr, if_neg (fun hs => hr ((h b (by simp)).mpr hs)),
        orderedInsert_congr r s a t fun y hy => h y (by simp [hy])]

/-- Two sorts agree when the relations agree on the list's elements. -/
theorem insertionSort_congr {α : Type} (r s : α → α → Prop) [DecidableRel r] [DecidableRel s] :
    ∀ l : List α, (∀ x ∈ l, ∀ y ∈ l, (r x y ↔ s x y)) →
      l.insertionSort r = l.insertionSort s
  | [], _ => rfl
  | a :: t, h => by
    have ht : t.insertionSort r = t.insertionSort s :=
      insertionSort_congr r s t fun x hx y hy => h x (by simp [hx]) y (by simp [hy])
    show (t.insertionSort r).orderedInsert r a = (t.insertionSort s).orderedInsert s a
    rw [ht]
    refine orderedInsert_congr r s a _ fun y hy => ?_
    have hy' : y ∈ t := (List.mem_insertionSort s).mp hy
    exact h a (by simp) y (by simp [hy'])

/-- Two sorted permutations of each other with pairwise-distinct sort keys
are equal. -/
theorem sorted_perm_eq_of_distinct_keys :
    ∀ {l₁ l₂ : List OfferRow}, List.Perm l₁ l₂ → l₁.Sorted keyLe → l₂.Sorted keyLe →
      (l₁.Pairwise fun x y => sortKey x ≠ sortKey y) → l₁ = l₂
  | [], l₂, hp, _, _, _ => hp.nil_eq
  | a :: t₁, [], hp, _, _, _ => absurd hp.symm.nil_eq (by simp)
  | a :: t₁, b :: t₂, hp, hs₁, hs₂, hd => by
    by_cases hab : a = b
    · subst hab
      rw [sorted_perm_eq_of_distinct_keys (hp.cons_inv) hs₁.of_cons hs₂.of_cons
        (hd.sublist (List.sublist_cons_self a t₁))]
    · exfalso
      have ha₂ : a ∈ t₂ := by
        have := hp.subset (List.mem_cons_self a t₁)
        exact (List.mem_cons.mp this).resolve_left hab
      have hb₁ : b ∈ t₁ := by
        have := hp.symm.subset (List.mem_cons_self b t₂)
        exact (List.mem_cons.mp this).resolve_left fun hE => hab hE.symm
      have h₁ : keyLe a b := List.rel_of_sorted_cons hs₁ b hb₁
      have h₂ : keyLe b a := List.rel_of_sorted_cons hs₂ a ha₂
      exact (List.rel_of_pairwise_cons hd hb₁) (le_antisymm h₁ h₂)

/-- A `keyLe` step is non-decreasing on the article component. -/
theorem keyLe_article {x y : OfferRow} (h : keyLe x y) : x.a.data ≤ y.a.data := by
  unfold keyLe sortKey at h
  rcases (Prod.Lex.le_iff _ _).mp h with h1 | h1
  · exact le_of_lt h1
  · exact le_of_eq h1.1

/-- On offers sharing an article, the pipeline key reduces to the
within-article key. -/
theorem keyLe_iff_groupLe {x y : OfferRow} (hxy : x.a = y.a) : keyLe x y ↔ groupLe x y := by
  unfold keyLe sortKey groupLe
  rw [Prod.Lex.le_iff]
  simp [hxy]

/-- A `keyLe`-sorted list has non-decreasing articles. -/
theorem articles_sorted {l : List OfferRow} (h : l.Sorted keyLe) :
    (l.map fun o => o.a.data).Sorted (· ≤ ·) :=
  List.Pairwise.map _ (fun _ _ hab => keyLe_article hab) h

/-- Elements of the capped grouping come from the input list. -/
theorem mem_groupCapFuel {x : OfferRow} :
    ∀ (fuel : ℕ) (l : List OfferRow), x ∈ groupCapFuel fuel l → x ∈ l
  | 0, _, h => absurd h (by simp [groupCapFuel])
  | _ + 1, [], h => absurd h (by simp [groupCapFuel])
  | fuel + 1, o :: t, h => by
    simp only [groupCapFuel, List.mem_append] at h
    rcases h with h | h
    · rcases List.mem_cons.mp (List.mem_of_mem_take h) with h' | h'
      · simp [h']
      · exact List.mem_cons_of_mem o ((List.takeWhile_sublist _).subset h')
    · exact List.mem_cons_of_mem o
        ((List.dropWhile_sublist _).subset (mem_groupCapFuel fuel _ h))

/-- The head surviving `dropWhile` fails the predicate. -/
theorem dropWhile_head_not {α : Type} (p : α → Bool) (l : List α) {r0 : α} {rs : List α}
    (h : l.dropWhile p = r0 :: rs) : p r0 = false := by
  have hh := List.head?_dropWhile_not p l
  rw [h] at hh
  simpa using hh

/-- Restricting the capped grouping of an article-sorted list to one
article gives the first 10 offers of that article. -/
theorem groupCapFuel_filter (A : String) :
    ∀ (fuel : ℕ) (l : List OfferRow), l.length ≤ fuel →
      ((l.map fun o => o.a.data).Sorted (· ≤ ·)) →
      (groupCapFuel fuel l).filter (fun o => o.a == A) =
        ((l.filter fun o => o.a == A).take 10)
  | 0, l, hlen, _ => by
    rw [List.length_eq_zero.mp (Nat.le_zero.mp hlen)]
    simp [groupCapFuel]
  | _ + 1, [], _, _ => by simp [groupCapFuel]
  | fuel + 1, o :: t, hlen, hsort => by
    have hsplit : (t.takeWhile fun x => x.a == o.a) ++ (t.dropWhile fun x => x.a == o.a)
        = t := List.takeWhile_append_dropWhile _ _
    have hcons : o :: t =
        (o :: t.takeWhile fun x => x.a == o.a) ++ (t.dropWhile fun x => x.a == o.a) := by
      rw [List.cons_append, hsplit]
    have hrunA : ∀ x ∈ (o :: t.takeWhile fun x => x.a == o.a), x.a = o.a := by
      intro x hx
      rcases List.mem_cons.mp hx with h' | h'
      · rw [h']
      · simpa using List.mem_takeWhile_imp h'
    have hOle : ∀ z ∈ t, o.a.data ≤ z.a.data := by
      intro z hz
      simp only [List.map_cons] at hsort
      exact List.rel_of_sorted_cons hsort _ (List.mem_map_of_mem _ hz)
    have hrest_sub : List.Sublist (t.dropWhile fun x => x.a == o.a) t :=
      List.dropWhile_sublist _
    have hrest_sorted :
        (((t.dropWhile fun x => x.a == o.a).map fun o => o.a.data).Sorted (· ≤ ·)) := by
      refine List.Pairwise.sublist ((hrest_sub.map _).trans ?_) hsort
      simp only [List.map_cons]
      exact List.sublist_cons_self _ _
    have hrestNe : ∀ x ∈ (t.dropWhile fun x => x.a == o.a), x.a ≠ o.a := by
      cases hre : t.dropWhile fun x => x.a == o.a with
      | nil => intro x hx; exact absurd hx (List.not_mem_nil x)
      | cons r0 rs =>
        intro x hx
        have hr0ne : r0.a ≠ o.a := by simpa using dropWhile_head_not _ t hre
        rcases List.mem_cons.mp hx with rfl | hxs
        · exact hr0ne
        · intro hE
          have h1 : o.a.data ≤ r0.a.data := hOle r0 (hrest_sub.subset (hre ▸ List.mem_cons_self r0 rs))
          have hlt : o.a.data < r0.a.data :=
            lt_of_le_of_ne h1 fun he => hr0ne (String.ext he.symm)
          have h2 : r0.a.data ≤ x.a.data := by
            rw [hre] at hrest_sorted
            simp only [List.map_cons] at hrest_sorted
            exact List.rel_of_sorted_cons hrest_sorted _ (List.mem_map_of_mem _ hxs)
          rw [hE] at h2
          exact absurd (lt_of_lt_of_le hlt h2) (lt_irrefl _)
    have hgc : groupCapFuel (fuel + 1) (o :: t) =
        (o :: t.takeWhile fun x => x.a == o.a).take 10 ++
          groupCapFuel fuel (t.dropWhile fun x => x.a == o.a) := rfl
    rw [hgc, List.filter_append]
    by_cases hA : o.a = A
    · have h1 : ((o :: t.takeWhile fun x => x.a == o.a).take 10).filter
          (fun o => o.a == A) = (o :: t.takeWhile fun x => x.a == o.a).take 10 :=
        List.filter_eq_self.mpr fun x hx => by
          simp [hrunA x (List.mem_of_mem_take hx), hA]
      have h2 : (groupCapFuel fuel (t.dropWhile fun x => x.a == o.a)).filter
          (fun o => o.a == A) = [] :=
        List.filter_eq_nil_iff.mpr fun x hx => by
          have hxr := mem_groupCapFuel fuel _ hx
          simp only [beq_iff_eq]
          rw [← hA]
          exact hrestNe x hxr
      have h3 : (o :: t).filter (fun o => o.a == A) =
          o :: t.takeWhile fun x => x.a == o.a := by
        rw [hcons, List.filter_append]
        have hfr : (o :: t.takeWhile fun x => x.a == o.a).filter (fun o => o.a == A) =
            o :: t.takeWhile fun x => x.a == o.a :=
          List.filter_eq_self.mpr fun x hx => by
            simp only [beq_iff_eq]
            rw [hrunA x hx, hA]
        rw [hfr]
        have hfrest : (t.dropWhile fun x => x.a == o.a).filter (fun o => o.a == A) = [] :=
          List.filter_eq_nil_iff.mpr fun x hx => by
            simp only [beq_iff_eq]
            rw [← hA]
            exact hrestNe x hx
        rw [hfrest, List.append_nil]
      rw [h1, h2, List.append_nil, h3]
    · have h1 : ((o :: t.takeWhile fun x => x.a == o.a).take 10).filter
          (fun o => o.a == A) = [] :=
        List.filter_eq_nil_iff.mpr fun x hx => by
          simp only [beq_iff_eq]
          rw [hrunA x (List.mem_of_mem_take hx)]
          exact hA
      have hlen' : (t.dropWhile fun x => x.a == o.a).length ≤ fuel :=
        le_trans hrest_sub.length_le (Nat.succ_le_succ_iff.mp (by simpa using hlen))
      have ih := groupCapFuel_filter A fuel _ hlen' hrest_sorted
      have h3 : (o :: t).filter (fun o => o.a == A) =
          (t.dropWhile fun x => x.a == o.a).filter (fun o => o.a == A) := by
        rw [hcons, List.filter_append]
        have hfr : ((o :: t.takeWhile fun x => x.a == o.a)).filter
            (fun o => o.a == A) = [] :=
          List.filter_eq_nil_iff.mpr fun x hx => by
            simp only [beq_iff_eq]
            rw [hrunA x hx]
            exact hA
        rw [hfr, List.nil_append]
      rw [h1, List.nil_append, ih, h3]

/-! ### Claims C1 and C6 -/

/-- Offer with article `"A"`, the given price, and no other data (the P5
ranking instance). -/
def pricedA (p : ℚ) : OfferRow :=
  { b := none, a := "A", price := some p, quantity := none, delivery := none,
    provider := none, rating := none, name := none, is_analog := false }

/-- Fifteen offers for one article with distinct ascending prices 1..15. -/
def offers15 : List OfferRow :=
  [pricedA 1, pricedA 2, pricedA 3, pricedA 4, pricedA 5, pricedA 6, pricedA 7,
   pricedA 8, pricedA 9, pricedA 10, pricedA 11, pricedA 12, pricedA 13,
   pricedA 14, pricedA 15]

/-- C1 (amended): the FILTERING phase discards unpriced offers; for every
article, its subsequence of the final list is the first 10 offers of that
article sorted by price ascending, quantity descending (a missing quantity
as zero), and delivery ascending with a missing or zero delivery treated as
the 999 sentinel; the 15-offer instance with prices 1..15 yields exactly 10
records with prices 1..10. -/
theorem run_stparts_filter_spec :
    (∀ offers : List OfferRow,
      (∀ o ∈ run_stparts_filter offers, o.price.isSome) ∧
      ∀ A : String,
        (run_stparts_filter offers).filter (fun o => o.a == A) =
          (List.insertionSort groupLe
            ((offers.filter fun o => o.price.isSome).filter fun o => o.a == A)).take 10) ∧
    run_stparts_filter offers15 =
      [pricedA 1, pricedA 2, pricedA 3, pricedA 4, pricedA 5, pricedA 6, pricedA 7,
       pricedA 8, pricedA 9, pricedA 10] ∧
    (run_stparts_filter offers15).length = 10 ∧
    ((run_stparts_filter offers15).map fun o => o.price) =
      [some 1, some 2, some 3, some 4, some 5, some 6, some 7, some 8, some 9, some 10] := by
  refine ⟨fun offers => ⟨?_, ?_⟩, by decide, by decide, by decide⟩
  · intro o ho
    have h1 := mem_groupCapFuel _ _ ho
    have h2 := (List.mem_insertionSort keyLe).mp h1
    exact (List.mem_filter.mp h2).2
  · intro A
    have hsorted := List.sorted_insertionSort keyLe (offers.filter fun o => o.price.isSome)
    have hstep1 : (run_stparts_filter offers).filter (fun o => o.a == A) =
        ((pipelineSort (offers.filter fun o => o.price.isSome)).filter
          (fun o => o.a == A)).take 10 :=
      groupCapFuel_filter A _ _ le_rfl (articles_sorted hsorted)
    have hstep2 : (pipelineSort (offers.filter fun o => o.price.isSome)).filter
        (fun o => o.a == A) =
        List.insertionSort keyLe
          ((offers.filter fun o => o.price.isSome).filter fun o => o.a == A) :=
      filter_insertionSort keyLe _ _
    have hstep3 : List.insertionSort keyLe
          ((offers.filter fun o => o.price.isSome).filter fun o => o.a == A) =
        List.insertionSort groupLe
          ((offers.filter fun o => o.price.isSome).filter fun o => o.a == A) := by
      refine insertionSort_congr keyLe groupLe _ fun x hx y hy => ?_
      have hxA : x.a = A := by simpa using (List.mem_filter.mp hx).2
      have hyA : y.a = A := by simpa using (List.mem_filter.mp hy).2
      exact keyLe_iff_groupLe (hxA.trans hyA.symm)
    rw [hstep1, hstep2, hstep3]

/-- C1 witness: the amended theorem instantiated at the 15-offer list and
at a list with an unpriced offer, with the characterizations evaluated. -/
theorem run_stparts_filter_spec_witness :
    (run_stparts_filter offers15).length = 10 ∧
    ((run_stparts_filter offers15).map fun o => o.price) =
      [some 1, some 2, some 3, some 4, some 5, some 6, some 7, some 8, some 9, some 10] ∧
    (run_stparts_filter offers15).filter (fun o => o.a == "A") =
      [pricedA 1, pricedA 2, pricedA 3, pricedA 4, pricedA 5, pricedA 6, pricedA 7,
       pricedA 8, pricedA 9, pricedA 10] := by
  refine ⟨run_stparts_filter_spec.2.2.1, run_stparts_filter_spec.2.2.2, ?_⟩
  exact ((run_stparts_filter_spec.1 offers15).2 "A").trans (by decide)

/-- Definition following the claim's words (for comparison only): sort with
the 999 sentinel applied to a missing delivery only, a zero delivery
keeping its value. -/
def claimDeliveryKey : Option ℤ → ℤ
  | none => 999
  | some d => d

/-- The claim's sort key, differing from the code's only on zero delivery. -/
def claimSortKey (o : OfferRow) : Lex (List Char × Lex (ℚ × Lex (ℤ × ℤ))) :=
  toLex (o.a.data,
    toLex (o.price.getD 0, toLex (quantityKey o.quantity, claimDeliveryKey o.delivery)))

/-- The claim's comparison. -/
def claimKeyLe (o₁ o₂ : OfferRow) : Prop := claimSortKey o₁ ≤ claimSortKey o₂

instance : DecidableRel claimKeyLe := fun o₁ o₂ =>
  inferInstanceAs (Decidable (claimSortKey o₁ ≤ claimSortKey o₂))

/-- The FILTERING phase as the claim words it. -/
def claimFilterPhase (all_offers : List OfferRow) : List OfferRow :=
  groupCap ((all_offers.filter fun o => o.price.isSome).insertionSort claimKeyLe)

/-- Offer with a zero delivery (producible: `data-deadline="0"` gives
`ceil(0/24) = 0`). -/
def offerDeliveryZero : OfferRow :=
  { b := none, a := "A", price := some 1, quantity := none, delivery := some 0,
    provider := none, rating := none, name := none, is_analog := false }

/-- Offer with a 500-day delivery. -/
def offerDelivery500 : OfferRow :=
  { b := none, a := "A", price := some 1, quantity := none, delivery := some 500,
    provider := none, rating := none, name := none, is_analog := false }

/-- C1 (counterexample): `o.delivery or 999` also replaces a zero delivery
by the sentinel, so an offer with delivery 0 ranks after one with delivery
500 at equal price — while the claim's sort (sentinel for missing delivery
only, delivery ascending) puts the zero-delivery offer first. -/
theorem run_stparts_filter_zero_delivery :
    run_stparts_filter [offerDeliveryZero, offerDelivery500] =
      [offerDelivery500, offerDeliveryZero] ∧
    claimFilterPhase [offerDeliveryZero, offerDelivery500] =
      [offerDeliveryZero, offerDelivery500] ∧
    run_stparts_filter [offerDeliveryZero, offerDelivery500] ≠
      claimFilterPhase [offerDeliveryZero, offerDelivery500] :=
  ⟨by decide, by decide, by decide⟩

/-- Offer with name `"x"` (all sort-key fields equal to `offerNameY`). -/
def offerNameX : OfferRow :=
  { b := none, a := "A", price := some 5, quantity := none, delivery := none,
    provider := none, rating := none, name := some "x", is_analog := false }

/-- Offer with name `"y"`. -/
def offerNameY : OfferRow :=
  { b := none, a := "A", price := some 5, quantity := none, delivery := none,
    provider := none, rating := none, name := some "y", is_analog := false }

/-- C6 (counterexample): two offers with identical sort keys but different
names — the stable sort preserves their arrival order, so permuting the
input permutes the output: the phase is not order-independent. -/
theorem run_stparts_filter_order_dependent :
    List.Perm [offerNameX, offerNameY] [offerNameY, offerNameX] ∧
    run_stparts_filter [offerNameX, offerNameY] ≠
      run_stparts_filter [offerNameY, offerNameX] :=
  ⟨List.Perm.swap offerNameY offerNameX [], by decide⟩

/-- C6 (amended): the post-ranking output is a pure, order-independent
function of the fetched offer set whenever no two priced offers share the
full sort key; with tied keys the stable sort preserves arrival order, so
only key-tied offers can make the output arrival-dependent. -/
theorem run_stparts_filter_perm_invariant (l₁ l₂ : List OfferRow)
    (hp : List.Perm l₁ l₂)
    (hd : (l₁.filter fun o => o.price.isSome).Pairwise fun x y => sortKey x ≠ sortKey y) :
    run_stparts_filter l₁ = run_stparts_filter l₂ := by
  have hpf : List.Perm (l₁.filter fun o => o.price.isSome)
      (l₂.filter fun o => o.price.isSome) := hp.filter _
  have hsort_eq : pipelineSort (l₁.filter fun o => o.price.isSome) =
      pipelineSort (l₂.filter fun o => o.price.isSome) := by
    refine sorted_perm_eq_of_distinct_keys
      ((List.perm_insertionSort keyLe _).trans
        (hpf.trans (List.perm_insertionSort keyLe _).symm))
      (List.sorted_insertionSort keyLe _) (List.sorted_insertionSort keyLe _) ?_
    exact ((List.perm_insertionSort keyLe _).pairwise_iff
      fun h he => h he.symm).mpr hd
  unfold run_stparts_filter
  rw [hsort_eq]

/-- C6 witness: the amended theorem applied to a concrete two-element
permutation with distinct keys. -/
theorem run_stparts_filter_perm_invariant_witness :
    run_stparts_filter [pricedA 1, pricedA 2] = run_stparts_filter [pricedA 2, pricedA 1] :=
  run_stparts_filter_perm_invariant _ _ (List.Perm.swap (pricedA 2) (pricedA 1) [])
    (by decide)

/-! ## Progress accounting (`parser/stparts_pipeline.py`, lines 85-105)

Each task, on completion, increments `completed_count` under the lock; a
task that obtained a session then reports
`int((completed_count / total_articles) * 100)` — integer truncation of the
exact ratio — while a task that got no session (`pool.acquire()` returned
`None`, which happens exactly when the proxy list is empty, hence for the
whole run) returns before the reporting block.  Because the counter is
mutated under mutual exclusion, the `k`-th completion reports the
percentage for count `k` regardless of completion order. -/

/-- One task completion: bump the count and, when a session was available,
append the truncated percentage to the report log. -/
def progressStep (total : ℕ) (hadSession : Bool) (st : ℕ × List ℕ) : ℕ × List ℕ :=
  let c := st.1 + 1
  if hadSession then (c, st.2 ++ [100 * c / total]) else (c, st.2)

/-- The sequence of reported percentages over a whole run of `total` tasks;
`hasProxies` says whether `pool.acquire()` hands out sessions (the pool's
proxy list is non-empty). -/
def progressReports (total : ℕ) (hasProxies : Bool) : List ℕ :=
  ((List.range total).foldl (fun st _ => progressStep total hasProxies st) (0, [])).2

/-- Rounding to the nearest integer (the claim's `round(100*c/total)`;
written half-up — the counterexample involves no half-way value, where
Python's banker's rounding could differ). -/
def claimRound (num den : ℕ) : ℕ := (2 * num + den) / (2 * den)

/-- C2 (counterexample): with 3 articles the second completion reports
`int(200/3) = 66`, not `round(200/3) = 67` — the code truncates instead of
rounding; and with an empty proxy pool no percentage is reported at all
(the skip branch returns before the reporting block), so the last reported
percentage never reaches 100 there. -/
theorem progress_truncates_and_skips :
    progressReports 3 true = [33, 66, 100] ∧
    claimRound (100 * 2) 3 = 67 ∧
    progressReports 4 false = [] := by
  refine ⟨by decide, by decide, by decide⟩

/-- Unfolded form of the progress fold. -/
theorem progressReports_eq (N : ℕ) :
    (∀ n : ℕ,
      (List.range n).foldl (fun st _ => progressStep N true st) (0, []) =
        (n, (List.range n).map fun k => 100 * (k + 1) / N)) ∧
    progressReports N false = [] := by
  constructor
  · intro n
    induction n with
    | zero => rfl
    | succ m ih =>
      rw [List.range_succ, List.foldl_append, ih, List.map_append]
      rfl
  · show ((List.range N).foldl (fun st _ => progressStep N false st) (0, [])).2 = []
    have : ∀ (n : ℕ) (c : ℕ),
        ((List.range n).foldl (fun st _ => progressStep N false st) (c, [])).2 = [] := by
      intro n
      induction n with
      | zero => intro c; rfl
      | succ m ih =>
        intro c
        rw [List.range_succ, List.foldl_append]
        have h1 : (List.range m).foldl (fun st _ => progressStep N false st) (c, []) =
            (((List.range m).foldl (fun st _ => progressStep N false st) (c, [])).1, []) := by
          have := ih c
          exact Prod.ext rfl this
        rw [h1]
        rfl
    exact this N 0

/-- C2 (amended): when the proxy pool is non-empty, a percentage equal to
the truncation `100 * completed / total` is reported after each task
completion (failures included), and the last reported percentage is exactly
100; when the pool is empty, every task is counted as completed but no
percentage is ever reported. -/
theorem progressReports_spec (N : ℕ) (hN : 0 < N) :
    progressReports N true = ((List.range N).map fun k => 100 * (k + 1) / N) ∧
    (progressReports N true).getLast? = some 100 ∧
    progressReports N false = [] := by
  have hfold := (progressReports_eq N).1 N
  have h1 : progressReports N true = ((List.range N).map fun k => 100 * (k + 1) / N) := by
    show ((List.range N).foldl (fun st _ => progressStep N true st) (0, [])).2 = _
    rw [hfold]
  refine ⟨h1, ?_, (progressReports_eq N).2⟩
  rw [h1]
  obtain ⟨m, rfl⟩ := Nat.exists_eq_add_of_lt hN
  rw [List.range_succ, List.map_append]
  simp only [List.map_cons, List.map_nil, List.getLast?_concat]
  exact congrArg some (Nat.mul_div_cancel 100 (show 0 < 0 + m + 1 by omega))

/-- C2 witness: the amended theorem applied at a run of 4 articles with a
non-empty pool — the reports are 25, 50, 75, 100 — and at an empty pool. -/
theorem progressReports_spec_witness :
    progressReports 4 true = [25, 50, 75, 100] ∧
    (progressReports 4 true).getLast? = some 100 ∧
    progressReports 4 false = [] := by
  have h := progressReports_spec 4 (by decide)
  exact ⟨h.1.trans (by decide), h.2.1, h.2.2⟩

/-! ## Run-level effect trace (`parser/stparts_pipeline.py`, lines 83-123)

The orchestrator's own effects in program order: the FETCHING progress
step, the gathered fetch tasks, `pool.close_all()`, and the FILTERING
steps.  The `await gather / await close_all` sequence has no `try/finally`,
so an interruption of the gather (cancellation, or any exception escaping
the fan-out) unwinds the coroutine before `close_all` runs; this is
modelled by cutting the trace at the interruption point. -/

/-- Observable effects of one pipeline run. -/
inductive PipelineEvent where
  | reportStep (step : String) (status : String)
  | taskCompleted (article : String)
  | closeAll
  | reportPct (pct : ℕ)
deriving Repr, DecidableEq

/-- The orchestrator's effect trace.  `cancelAfter = none` is a run whose
gather returns normally; `cancelAfter = some k` is a run cancelled while
awaiting the gather, after `k` tasks completed. -/
def runEvents (articles : List String) (cancelAfter : Option ℕ) : List PipelineEvent :=
  PipelineEvent.reportStep "FETCHING" "IN_PROGRESS" ::
    match cancelAfter with
    | some k => (articles.take k).map PipelineEvent.taskCompleted
    | none =>
      (articles.map PipelineEvent.taskCompleted) ++
        [PipelineEvent.closeAll,
         PipelineEvent.reportStep "FILTERING" "IN_PROGRESS",
         PipelineEvent.reportStep "FILTERING" "SUCCESS"]

/-- C8: in a run whose gather completes, `close_all` runs exactly once and
only after every task event; but in a cancelled run `close_all` never runs —
the bare `await gather; await close_all` sequence has no guaranteed-cleanup
scoping, contradicting the specified exactly-once-including-error-paths
contract. -/
theorem runEvents_close_all (articles : List String) (k : ℕ) :
    (runEvents articles none).count PipelineEvent.closeAll = 1 ∧
    (runEvents articles (some k)).count PipelineEvent.closeAll = 0 := by
  constructor
  · show (PipelineEvent.reportStep "FETCHING" "IN_PROGRESS" ::
      ((articles.map PipelineEvent.taskCompleted) ++ _)).count PipelineEvent.closeAll = 1
    rw [List.count_cons, List.count_append]
    have hmap : (articles.map PipelineEvent.taskCompleted).count PipelineEvent.closeAll = 0 :=
      List.count_eq_zero.mpr fun h => by
        obtain ⟨x, _, hx⟩ := List.mem_map.mp h
        exact PipelineEvent.noConfusion hx
    rw [hmap]
    rfl
  · show (PipelineEvent.reportStep "FETCHING" "IN_PROGRESS" ::
      (articles.take k).map PipelineEvent.taskCompleted).count PipelineEvent.closeAll = 0
    rw [List.count_cons]
    have hmap : ((articles.take k).map PipelineEvent.taskCompleted).count
        PipelineEvent.closeAll = 0 :=
      List.count_eq_zero.mpr fun h => by
        obtain ⟨x, _, hx⟩ := List.mem_map.mp h
        exact PipelineEvent.noConfusion hx
    rw [hmap]
    rfl

/-! ## Export pivot (`parser/excel_export.py`, lines 12-51)

`pivot_offers_for_export` builds a DataFrame and groups it by
`["b", "a"]`.  Pandas `groupby` drops rows whose group key contains a
missing value (`dropna=True`), so offers with `b = None` vanish; group keys
are iterated in ascending `(brand, article)` order (`sort=True`).  Each
group is re-sorted by `["price", "quantity"]`, ascending price and
descending quantity with missing values last, and its first 10 offers fill
the numbered column groups.  (Pandas' quicksort is not stable; the model
uses a stable sort — the properties stated below do not depend on tie
order.) -/

/-- One numbered column group `(price i, supplier i, quantity i, rating i,
name i)`. -/
structure ExportSlot where
  price : Option ℚ
  supplier : Option String
  quantity : Option ℤ
  rating : Option ℚ
  name : Option String
deriving Repr, DecidableEq

/-- One output row of the wide report. -/
structure WideRow where
  brand : String
  article : String
  slots : List ExportSlot
deriving Repr, DecidableEq

/-- The filled column group of one offer. -/
def offerSlot (o : OfferRow) : ExportSlot :=
  { price := o.price, supplier := o.provider, quantity := o.quantity,
    rating := o.rating, name := o.name }

/-- Price sort key of `sort_values(["price", ...])`: missing (NaN) last. -/
def exportPriceKey : Option ℚ → WithTop ℚ
  | none => ⊤
  | some v => (v : WithTop ℚ)

/-- Quantity sort key (descending, NaN last). -/
def exportQtyKey : Option ℤ → WithTop ℤ
  | none => ⊤
  | some v => ((-v : ℤ) : WithTop ℤ)

/-- The within-group sort key of the export,
`sort_values(by=["price", "quantity"], ascending=[True, False])`. -/
def exportKey (o : OfferRow) : Lex (WithTop ℚ × WithTop ℤ) :=
  toLex (exportPriceKey o.price, exportQtyKey o.quantity)

/-- The export comparison. -/
def exportLe (o₁ o₂ : OfferRow) : Prop := exportKey o₁ ≤ exportKey o₂

instance : DecidableRel exportLe := fun o₁ o₂ =>
  inferInstanceAs (Decidable (exportKey o₁ ≤ exportKey o₂))

instance : IsTotal OfferRow exportLe := ⟨fun o₁ o₂ => le_total (exportKey o₁) (exportKey o₂)⟩

instance : IsTrans OfferRow exportLe := ⟨fun _ _ _ => le_trans⟩

/-- Ascending `(brand, article)` order on group keys. -/
def pairLe (p q : String × String) : Prop :=
  toLex (p.1.data, p.2.data) ≤ toLex (q.1.data, q.2.data)

instance : DecidableRel pairLe := fun p q =>
  inferInstanceAs (Decidable (toLex (p.1.data, p.2.data) ≤ toLex (q.1.data, q.2.data)))

/-- The distinct group keys of the export: `(brand, article)` pairs of
offers with a present brand (pandas drops missing group keys), in ascending
order. -/
def exportKeys (offers : List OfferRow) : List (String × String) :=
  ((offers.filterMap fun o => o.b.map fun b => (b, o.a)).dedup).insertionSort pairLe

/-- `pivot_offers_for_export` (`parser/excel_export.py`, lines 12-51): one
wide row per distinct `(brand, article)` key, its slots the group's first
10 offers in export order. -/
def pivot_offers_for_export (offers : List OfferRow) : List WideRow :=
  (exportKeys offers).map fun k =>
    { brand := k.1, article := k.2,
      slots := List.map offerSlot
        ((List.insertionSort exportLe
          (offers.filter fun o => o.b == some k.1 && o.a == k.2)).take 10) }

/-- Offer for article `"X"` from brand `"B1"`. -/
def oB1X : OfferRow :=
  { b := some "B1", a := "X", price := some 1, quantity := none, delivery := none,
    provider := none, rating := none, name := none, is_analog := false }

/-- Offer for the same article `"X"` from brand `"B2"`. -/
def oB2X : OfferRow :=
  { b := some "B2", a := "X", price := some 2, quantity := none, delivery := none,
    provider := none, rating := none, name := none, is_analog := false }

/-- Offer for article `"X"` with no brand. -/
def oNoBrand : OfferRow :=
  { b := none, a := "X", price := some 3, quantity := none, delivery := none,
    provider := none, rating := none, name := none, is_analog := false }

/-- C7 (counterexample): the export groups by `(brand, article)`, not by
article — the same article with two brands yields two rows; and an offer
whose brand is missing is dropped entirely (pandas discards missing group
keys), yielding zero rows for an article present in the input. -/
theorem pivot_not_one_row_per_article :
    ((pivot_offers_for_export [oB1X, oB2X]).map fun r => r.article) = ["X", "X"] ∧
    (pivot_offers_for_export [oB1X, oB2X]).length = 2 ∧
    pivot_offers_for_export [oNoBrand] = [] :=
  ⟨by decide, by decide, by decide⟩

/-- C7 (amended): `pivot_offers_for_export` produces exactly one output row
per distinct `(brand, article)` pair among offers with a present brand
(offers with a missing brand are dropped), rows in ascending
`(brand, article)` order; each row carries `min(10, group size)` filled
column groups in ascending price order (missing prices last), the remaining
groups staying empty. -/
theorem pivot_offers_spec (offers : List OfferRow) :
    ((pivot_offers_for_export offers).map fun r => (r.brand, r.article)) =
      exportKeys offers ∧
    ∀ row ∈ pivot_offers_for_export offers,
      row.slots.length =
        min 10 ((offers.filter fun o => o.b == some row.brand && o.a == row.article).length) ∧
      (row.slots.map fun s => exportPriceKey s.price).Sorted (· ≤ ·) := by
  constructor
  · show ((exportKeys offers).map _).map _ = exportKeys offers
    rw [List.map_map]
    have hid : ((fun r : WideRow => (r.brand, r.article)) ∘ fun k : String × String =>
        WideRow.mk k.1 k.2 (List.map offerSlot
          ((List.insertionSort exportLe
            (offers.filter fun o => o.b == some k.1 && o.a == k.2)).take 10))) = id :=
      funext fun k => rfl
    rw [hid, List.map_id]
  · intro row hrow
    obtain ⟨k, hk, hrw⟩ := List.mem_map.mp hrow
    subst hrw
    constructor
    · simp [List.length_take, List.length_insertionSort]
    · have hs := List.sorted_insertionSort exportLe
        (offers.filter fun o => o.b == some k.1 && o.a == k.2)
      have htake : ((List.insertionSort exportLe
          (offers.filter fun o => o.b == some k.1 && o.a == k.2)).take 10).Sorted exportLe :=
        List.Pairwise.sublist (List.take_sublist _ _) hs
      simp only [List.map_map]
      refine List.Pairwise.map _ ?_ htake
      intro x y hxy
      unfold exportLe exportKey at hxy
      rcases (Prod.Lex.le_iff _ _).mp hxy with h1 | h1
      · exact le_of_lt h1
      · exact le_of_eq h1.1

/-- C7 witness: the amended theorem applied at a concrete three-offer list
with two brands for one article, key list and slot count evaluated. -/
theorem pivot_offers_spec_witness :
    ((pivot_offers_for_export [oB2X, oB1X, oB1X]).map fun r => (r.brand, r.article)) =
      [("B1", "X"), ("B2", "X")] ∧
    (WideRow.mk "B1" "X" [offerSlot oB1X, offerSlot oB1X]).slots.length =
      min 10 (([oB2X, oB1X, oB1X].filter fun o => o.b == some "B1" && o.a == "X").length) := by
  have h := pivot_offers_spec [oB2X, oB1X, oB1X]
  refine ⟨h.1.trans (by decide), ?_⟩
  exact (h.2 (WideRow.mk "B1" "X" [offerSlot oB1X, offerSlot oB1X]) (by decide)).1

end Admin2
